import Mathlib

/-!
Verification development for the `dreams-prs` exporter (`src/index.ts`).

The program fetches Bitbucket pull requests in states OPEN and MERGED,
filters them to a 90-day lookback window, enriches each kept record with
commit contributors, and writes the rows to a spreadsheet.

The embedding below translates the TypeScript source into executable Lean
definitions.  JavaScript-specific semantics are modelled explicitly:
truthiness of strings (`""` is falsy), `||` defaulting, `Set` insertion
order, `String.prototype.replace` with a string pattern (first occurrence
only), `split(sep)[0]` (prefix before the first separator occurrence), and
`Date` parsing/serialization restricted to the ISO-8601 shapes the program
actually exchanges.  Network I/O is modelled by a function from URLs to
responses, and the unbounded `while (nextUrl)` loops by fuel-indexed
recursion whose `none` outcome denotes divergence.
-/

namespace DreamsPRs

/-- A UTC calendar timestamp, the model of a valid JavaScript `Date`
(millisecond precision). -/
structure Timestamp where
  year : Nat
  month : Nat
  day : Nat
  hour : Nat
  minute : Nat
  second : Nat
  ms : Nat
deriving DecidableEq

/-- Decimal digit value of a character, if it is a digit. -/
def digit? (c : Char) : Option Nat :=
  if c.isDigit then some (c.toNat - 48) else none

/-- Gregorian leap year test. -/
def isLeapYear (y : Nat) : Bool :=
  y % 4 == 0 && (y % 100 != 0 || y % 400 == 0)

/-- Number of days in a month (1-12) of a given year. -/
def daysInMonth (y m : Nat) : Nat :=
  if m = 2 then (if isLeapYear y then 29 else 28)
  else if m = 4 ∨ m = 6 ∨ m = 9 ∨ m = 11 then 30
  else 31

/-- Calendar-range validity, mirroring the component validation JavaScript
engines apply to ISO-8601 date-time strings (out-of-range components give
an invalid `Date`). -/
def validTimestamp (t : Timestamp) : Bool :=
  decide (1 ≤ t.month ∧ t.month ≤ 12 ∧ 1 ≤ t.day ∧
    t.day ≤ daysInMonth t.year t.month ∧
    t.hour ≤ 23 ∧ t.minute ≤ 59 ∧ t.second ≤ 59 ∧ t.ms ≤ 999)

/-- Parse the fractional-seconds-and-zone tail of an ISO string: either a
bare `Z` or `.dddZ` with exactly three fraction digits (the millisecond
precision the program's own serializer emits). -/
def parseTail (rest : List Char) : Option Nat :=
  match rest with
  | [z] => if z = 'Z' then some 0 else none
  | [dot, f1, f2, f3, z] =>
      if dot = '.' ∧ z = 'Z' then do
        let u1 ← digit? f1
        let u2 ← digit? f2
        let u3 ← digit? f3
        pure (u1 * 100 + u2 * 10 + u3)
      else none
  | _ => none

/-- Two consecutive decimal digits as a number. -/
def twoDigits (c1 c2 : Char) : Option Nat := do
  let a ← digit? c1
  let b ← digit? c2
  pure (a * 10 + b)

/-- Four consecutive decimal digits as a number. -/
def fourDigits (c1 c2 c3 c4 : Char) : Option Nat := do
  let a ← twoDigits c1 c2
  let b ← twoDigits c3 c4
  pure (a * 100 + b)

/-- Parse `YYYY-MM-DDTHH:MM:SS(.mmm)Z` into a `Timestamp`; `none` models
JavaScript's invalid `Date` (`NaN` time value). -/
def parseISOChars (cs : List Char) : Option Timestamp :=
  match cs with
  | y1 :: y2 :: y3 :: y4 :: p1 :: m1 :: m2 :: p2 :: d1 :: d2 :: p3 ::
    h1 :: h2 :: p4 :: n1 :: n2 :: p5 :: s1 :: s2 :: rest =>
      if p1 = '-' ∧ p2 = '-' ∧ p3 = 'T' ∧ p4 = ':' ∧ p5 = ':' then do
        let year ← fourDigits y1 y2 y3 y4
        let month ← twoDigits m1 m2
        let day ← twoDigits d1 d2
        let hour ← twoDigits h1 h2
        let minute ← twoDigits n1 n2
        let second ← twoDigits s1 s2
        let ms ← parseTail rest
        let t : Timestamp := ⟨year, month, day, hour, minute, second, ms⟩
        if validTimestamp t then some t else none
      else none
  | _ => none

/-- Model of `new Date(isoString)` on the ISO shapes in the program's domain. -/
def parseISO (s : String) : Option Timestamp :=
  parseISOChars s.toList

/-- Days since 1970-01-01 of a civil date (standard civil-from-days
inverse); used only to give `Timestamp` the epoch-based order `Date`
comparison uses. -/
def daysFromCivil (y m d : Int) : Int :=
  let y2 : Int := if m ≤ 2 then y - 1 else y
  let era : Int := (if 0 ≤ y2 then y2 else y2 - 399) / 400
  let yoe : Int := y2 - era * 400
  let doy : Int := (153 * (m + (if 2 < m then -3 else 9)) + 2) / 5 + d - 1
  let doe : Int := yoe * 365 + yoe / 4 - yoe / 100 + doy
  era * 146097 + doe - 719468

/-- The `Date` time value: milliseconds since the epoch. -/
def Timestamp.epochMillis (t : Timestamp) : Int :=
  (((daysFromCivil t.year t.month t.day * 24 + t.hour) * 60 + t.minute) * 60
    + t.second) * 1000 + t.ms

/-- Two decimal digits, zero-padded (as `toISOString` prints fields). -/
def pad2 (n : Nat) : List Char :=
  [Nat.digitChar (n / 10 % 10), Nat.digitChar (n % 10)]

/-- Three decimal digits, zero-padded. -/
def pad3 (n : Nat) : List Char :=
  [Nat.digitChar (n / 100 % 10), Nat.digitChar (n / 10 % 10),
   Nat.digitChar (n % 10)]

/-- Four decimal digits, zero-padded. -/
def pad4 (n : Nat) : List Char :=
  [Nat.digitChar (n / 1000 % 10), Nat.digitChar (n / 100 % 10),
   Nat.digitChar (n / 10 % 10), Nat.digitChar (n % 10)]

/-- Character content of `Date.prototype.toISOString`:
`YYYY-MM-DDTHH:MM:SS.mmmZ`. -/
def toISOChars (t : Timestamp) : List Char :=
  pad4 t.year ++ '-' :: pad2 t.month ++ '-' :: pad2 t.day ++ 'T' ::
  pad2 t.hour ++ ':' :: pad2 t.minute ++ ':' :: pad2 t.second ++ '.' ::
  pad3 t.ms ++ ['Z']

/-- Model of `Date.prototype.toISOString`. -/
def Timestamp.toISOString (t : Timestamp) : String :=
  String.mk (toISOChars t)

/-- JavaScript `str.replace("T", " ")`: a string pattern replaces only the
FIRST occurrence. -/
def jsReplaceFirstT : List Char → List Char
  | [] => []
  | c :: cs => if c = 'T' then ' ' :: cs else c :: jsReplaceFirstT cs

/-- JavaScript `str.split(sep)[0]` for a one-character separator: the
prefix before the first occurrence (the whole string when absent). -/
def takeUntilChar (stop : Char) : List Char → List Char
  | [] => []
  | c :: cs => if c = stop then [] else c :: takeUntilChar stop cs

/-- The source's `formatDate`:
`new Date(isoString).toISOString().replace("T", " ").split(".")[0]`.
`none` models the `RangeError` thrown by `toISOString` on an invalid
`Date`. -/
def formatDate (isoString : String) : Option String :=
  (parseISO isoString).map
    (fun t => String.mk (takeUntilChar '.' (jsReplaceFirstT (toISOChars t))))

/-- The `YYYY-MM-DD HH:MM:SS` rendering of a timestamp, stated
independently of `formatDate`'s replace/split pipeline. -/
def dateTimeDisplay (t : Timestamp) : String :=
  String.mk (pad4 t.year ++ '-' :: pad2 t.month ++ '-' :: pad2 t.day ++ ' ' ::
    pad2 t.hour ++ ':' :: pad2 t.minute ++ ':' :: pad2 t.second)

/-- The filter comparison `new Date(a) >= new Date(b)`: `Date` objects
compare by epoch time value, and any comparison with an invalid `Date`
(`NaN`) is false. -/
def dateGE (a b : String) : Bool :=
  match parseISO a, parseISO b with
  | some ta, some tb => decide (tb.epochMillis ≤ ta.epochMillis)
  | _, _ => false

/-! ## JavaScript value helpers -/

/-- JavaScript truthiness of a possibly-absent string: `undefined` and `""`
are falsy. -/
def jsTruthy (o : Option String) : Bool :=
  match o with
  | some s => decide (s ≠ "")
  | none => false

/-- JavaScript `a || d` for a possibly-absent string `a`: the default is
taken when `a` is `undefined` or `""`. -/
def jsOr (o : Option String) (d : String) : String :=
  match o with
  | some s => if s = "" then d else s
  | none => d

/-- Model of `Set.prototype.add`: JavaScript `Set` keeps insertion order and ignores
an element already present. -/
def addToSet (l : List String) (x : String) : List String :=
  if x ∈ l then l else l ++ [x]

/-- Model of `[...new Set(l)]`: deduplicate keeping the first occurrence of each
element, in insertion order. -/
def jsSetOfList (l : List String) : List String :=
  l.foldl addToSet []

/-- Drop leading JavaScript whitespace. -/
def dropLeadingWs : List Char → List Char
  | [] => []
  | c :: cs => if c.isWhitespace then dropLeadingWs cs else c :: cs

/-- JavaScript `String.prototype.trim`: strip whitespace at both ends. -/
def trimChars (cs : List Char) : List Char :=
  ((dropLeadingWs (dropLeadingWs cs).reverse)).reverse

/-- Model of `raw.split("<")[0].trim()`: the part of a raw `Name <email>` author
string before the first `<`, trimmed. -/
def parseRawName (r : String) : String :=
  String.mk (trimChars (takeUntilChar '<' r.toList))

/-! ## HTTP and pagination model -/

/-- One page of a paginated Bitbucket response:
`{ values: [...], next?: string }`. -/
structure Page (α : Type) where
  values : List α
  next : Option String
deriving DecidableEq

/-- What the `catch` blocks see of a failed request: an axios error with an
optional `response.data` body and a `message`. -/
structure ErrInfo where
  responseData : Option String
  message : String
deriving DecidableEq

/-- A console line: the fixed message plus the optional second argument
passed to `console.error`. -/
structure LogEntry where
  message : String
  detail : Option String
deriving DecidableEq

/-- The detail argument of the error logs:
`error.response?.data || error.message`. -/
def errDetail (e : ErrInfo) : String :=
  jsOr e.responseData e.message

/-- Model of `nextUrl = response.data.next || null`: a missing or empty `next` link
ends the loop. -/
def normNext (next : Option String) : Option String :=
  match next with
  | some s => if s = "" then none else some s
  | none => none

/-- The network, as the program sees it: each `axios.get` on a URL either
yields a parsed page or throws. -/
def Http (α : Type) : Type := String → Except ErrInfo (Page α)

/-- The `while (nextUrl)` request loop shared by both fetch functions,
indexed by fuel.  Returns the requested URLs in order, the successfully
received pages in order, and `some e` when the loop was ended by a thrown
error (`none` when it ended by a missing `next` link).  The outer `none`
means the fuel ran out, i.e. models divergence along an infinite chain of
`next` links. -/
def pageLoop (http : Http α) :
    Nat → Option String → Option (List String × List (Page α) × Option ErrInfo)
  | _, none => some ([], [], none)
  | 0, some _ => none
  | fuel + 1, some url =>
    match http url with
    | .error e => some ([url], [], some e)
    | .ok p =>
      match pageLoop http fuel (normNext p.next) with
      | none => none
      | some (tr, ps, res) => some (url :: tr, p :: ps, res)

/-- One step of the `next`-link chain: the URL the loop would request after
`u`, if any.  An error or a missing `next` link ends the chain. -/
def nextUrlOf (http : Http α) (u : String) : Option String :=
  match http u with
  | .error _ => none
  | .ok p => normNext p.next

/-- Iterated `nextUrlOf`: the chain of `next` links from `u` is finite
exactly when some iterate reaches `none`. -/
def stepN (http : Http α) : Nat → Option String → Option String
  | 0, u => u
  | n + 1, u => stepN http n (u.bind (nextUrlOf http))

/-! ## Configuration -/

/-- Constant `REPO_SLUG = "dreams"`: the repository identifier is a hardcoded
constant, not an environment setting. -/
def REPO_SLUG : String := "dreams"

/-- The settings the program runs with after startup. -/
structure Config where
  username : String
  appPassword : String
  workspace : String
  repoSlug : String
deriving DecidableEq

/-- Startup configuration: reads `BITBUCKET_USERNAME`,
`BITBUCKET_APP_PASSWORD` and `BITBUCKET_WORKSPACE` from `process.env`
(modelled as a map from variable names to optional values), takes the
repository slug from the constant `REPO_SLUG`, and throws
(`Except.error`) when `!USERNAME || !APP_PASSWORD || !WORKSPACE ||
!REPO_SLUG`. -/
def loadConfig (env : String → Option String) : Except String Config :=
  if jsTruthy (env "BITBUCKET_USERNAME") &&
      jsTruthy (env "BITBUCKET_APP_PASSWORD") &&
      jsTruthy (env "BITBUCKET_WORKSPACE") && jsTruthy (some REPO_SLUG) then
    .ok ⟨(env "BITBUCKET_USERNAME").getD "",
      (env "BITBUCKET_APP_PASSWORD").getD "",
      (env "BITBUCKET_WORKSPACE").getD "", REPO_SLUG⟩
  else
    .error "Missing required environment variables in .env file"

/-! ## Commit records and the contributor resolver -/

/-- Shape of `commit.author.user`, when present. -/
structure CommitUser where
  display_name : Option String
deriving DecidableEq

/-- Shape of `commit.author`, when present. -/
structure CommitAuthor where
  user : Option CommitUser
  raw : Option String
deriving DecidableEq

/-- One element of a commits page. -/
structure Commit where
  author : Option CommitAuthor
deriving DecidableEq

/-- Value of `commit.author?.user?.display_name` as an optional value. -/
def authorDisplayName (c : Commit) : Option String :=
  (c.author.bind (·.user)).bind (·.display_name)

/-- Value of `commit.author?.raw` as an optional value. -/
def authorRaw (c : Commit) : Option String :=
  c.author.bind (·.raw)

/-- The per-commit body of the contributor loop: add the registered user's
display name when truthy, else the parsed raw author name when the raw
string is truthy, else nothing. -/
def processCommit (contributors : List String) (commit : Commit) :
    List String :=
  if jsTruthy (authorDisplayName commit) then
    addToSet contributors ((authorDisplayName commit).getD "")
  else if jsTruthy (authorRaw commit) then
    addToSet contributors (parseRawName ((authorRaw commit).getD ""))
  else
    contributors

/-- The commits endpoint for one pull request. -/
def commitsUrl (cfg : Config) (prId : Nat) : String :=
  s!"https://api.bitbucket.org/2.0/repositories/{cfg.workspace}/{cfg.repoSlug}/pullrequests/{prId}/commits"

/-- The `console.error` line of the contributor resolver's catch block. -/
def contribErrLog (prId : Nat) (e : ErrInfo) : LogEntry :=
  ⟨s!"Error fetching contributors for PR {prId}:", some (errDetail e)⟩

/-- The source's `getContributorsForPR`: page through the commits of one pull request
accumulating a `Set` of contributor names; on any thrown error, log and
resolve to the empty list.  The outer `none` models divergence (an
infinite `next` chain given the available fuel). -/
def getContributorsForPR (httpC : Http Commit) (cfg : Config) (cfuel : Nat)
    (prId : Nat) : Option (List String × List LogEntry) :=
  match pageLoop httpC cfuel (some (commitsUrl cfg prId)) with
  | none => none
  | some (_, ps, none) =>
      some ((ps.flatMap (·.values)).foldl processCommit [], [])
  | some (_, _, some e) => some ([], [contribErrLog prId e])

/-! ## Pull-request records and the fetcher -/

/-- Shape of `pr.author` (required by the response shape; the program reads
`pr.author.display_name` unconditionally). -/
structure PRAuthor where
  display_name : String
deriving DecidableEq

/-- One element of a pull-requests page.  The deep optional chains of the
source (`pr.source?.branch?.name`, `pr.destination?.branch?.name`,
`pr.links?.html?.href`, `pr.closed_by?.display_name`) are flattened to one
optional string each; `none` stands for any break in the chain. -/
structure PR where
  id : Nat
  title : String
  state : String
  author : PRAuthor
  created_on : String
  updated_on : String
  source_branch : Option String
  destination_branch : Option String
  html_href : Option String
  comments_count : Option Nat
  closed_by : Option String
deriving DecidableEq

/-- One exported row, with the source's field names. -/
structure OutputRow where
  ID : Nat
  Title : String
  State : String
  Developer : String
  Created_On : String
  Updated_On : String
  Source_Branch : String
  Destination_Branch : String
  PR_Link : String
  Contributors : String
  Comment_Count : Nat
  Closed_By : String
deriving DecidableEq

/-- The object literal built for each kept pull request.  `none` models the
`RangeError` thrown by `formatDate` on an unparseable timestamp. -/
def buildRow (pr : PR) (contributors : List String) : Option OutputRow :=
  match formatDate pr.created_on, formatDate pr.updated_on with
  | some createdStr, some updatedStr =>
    some {
      ID := pr.id
      Title := pr.title
      State := pr.state
      Developer := pr.author.display_name
      Created_On := createdStr
      Updated_On := updatedStr
      Source_Branch := jsOr pr.source_branch "Unknown"
      Destination_Branch := jsOr pr.destination_branch "Unknown"
      PR_Link := jsOr pr.html_href "N/A"
      Contributors := String.intercalate ", "
        (jsSetOfList (pr.author.display_name :: contributors))
      Comment_Count := pr.comments_count.getD 0
      Closed_By := jsOr pr.closed_by "N/A" }
  | _, _ => none

/-- The `RangeError: Invalid time value` thrown by `toISOString` on an
invalid `Date`, as seen by the catch block (no HTTP response attached). -/
def invalidTimeErr : ErrInfo :=
  ⟨none, "Invalid time value"⟩

/-- Process the filtered pull requests of one page (the `Promise.all` over
`filteredPRs`): resolve contributors and build a row for each.  Returns
the rows (or the first thrown error) together with the log lines of the
contributor lookups; `none` models divergence of a contributor lookup. -/
def processPRs (httpC : Http Commit) (cfg : Config) (cfuel : Nat) :
    List PR → Option (Except ErrInfo (List OutputRow) × List LogEntry)
  | [] => some (.ok [], [])
  | pr :: rest =>
    match getContributorsForPR httpC cfg cfuel pr.id with
    | none => none
    | some (contributors, logs) =>
      match processPRs httpC cfg cfuel rest with
      | none => none
      | some (restRes, restLogs) =>
        match buildRow pr contributors with
        | none => some (.error invalidTimeErr, logs ++ restLogs)
        | some row =>
          match restRes with
          | .ok rows => some (.ok (row :: rows), logs ++ restLogs)
          | .error e => some (.error e, logs ++ restLogs)

/-- The pull-requests endpoint for one state. -/
def prsUrl (cfg : Config) (state : String) : String :=
  s!"https://api.bitbucket.org/2.0/repositories/{cfg.workspace}/{cfg.repoSlug}/pullrequests?state={state}&pagelen=50"

/-- The `while (nextUrl)` body of `fetchPRs`: request a page, keep the
pull requests with `new Date(pr.created_on) >= new Date(sinceDate)`,
resolve contributors and build a row for each, append, follow
`response.data.next || null`.  Returns the requested URLs, the rows (or
the first thrown error, which the caller's catch turns into `[]`), and
the accumulated contributor log lines. -/
def fetchLoop (httpPR : Http PR) (httpC : Http Commit) (cfg : Config)
    (sinceDate : String) (cfuel : Nat) :
    Nat → Option String →
    Option (List String × Except ErrInfo (List OutputRow) × List LogEntry)
  | _, none => some ([], .ok [], [])
  | 0, some _ => none
  | fuel + 1, some url =>
    match httpPR url with
    | .error e => some ([url], .error e, [])
    | .ok page =>
      match processPRs httpC cfg cfuel
          (page.values.filter (fun pr => dateGE pr.created_on sinceDate)) with
      | none => none
      | some (.error e, logs) => some ([url], .error e, logs)
      | some (.ok rows, logs) =>
        match fetchLoop httpPR httpC cfg sinceDate cfuel fuel
            (normNext page.next) with
        | none => none
        | some (tr, .ok restRows, restLogs) =>
          some (url :: tr, .ok (rows ++ restRows), logs ++ restLogs)
        | some (tr, .error e, restLogs) =>
          some (url :: tr, .error e, logs ++ restLogs)

/-- The success log line of `fetchPRs`. -/
def countLog (state : String) (n : Nat) : LogEntry :=
  ⟨s!"Total {state} PRs in the last 90 days: {n}", none⟩

/-- The catch-block log line of `fetchPRs`. -/
def fetchErrLog (state : String) (e : ErrInfo) : LogEntry :=
  ⟨s!"Error fetching {state} PRs:", some (errDetail e)⟩

/-- The source's `fetchPRs`: run the page loop from the state's start URL; on success
log the total and return the rows, on a thrown error log it and return
`[]`.  The outer `none` models divergence. -/
def fetchPRs (httpPR : Http PR) (httpC : Http Commit) (cfg : Config)
    (sinceDate : String) (cfuel fuel : Nat) (state : String) :
    Option (List String × List OutputRow × List LogEntry) :=
  match fetchLoop httpPR httpC cfg sinceDate cfuel fuel
      (some (prsUrl cfg state)) with
  | none => none
  | some (tr, .ok rows, logs) =>
    some (tr, rows, logs ++ [countLog state rows.length])
  | some (tr, .error e, logs) =>
    some (tr, [], logs ++ [fetchErrLog state e])

/-! ## Exporter -/

/-- The spreadsheet artifact: file path, sheet name, rows in order. -/
structure ExportFile where
  path : String
  sheet : String
  rows : List OutputRow
deriving DecidableEq

/-- Log line when both result lists are empty. -/
def noPRsLog : LogEntry :=
  ⟨"No PRs found. No Excel file generated.", none⟩

/-- Log line after a successful save. -/
def savedLog (path : String) : LogEntry :=
  ⟨s!"Excel file successfully saved as {path}", none⟩

/-- The source's `exportToExcel`: fetch OPEN and MERGED rows, concatenate, skip the
export when the concatenation is empty, else write one sheet named
"Pull Requests".  The first component is the written file, if any. -/
def exportToExcel (httpPR : Http PR) (httpC : Http Commit) (cfg : Config)
    (sinceDate : String) (cfuel fuel : Nat) :
    Option (Option ExportFile × List LogEntry) :=
  match fetchPRs httpPR httpC cfg sinceDate cfuel fuel "OPEN",
        fetchPRs httpPR httpC cfg sinceDate cfuel fuel "MERGED" with
  | some (_, openPRs, openLogs), some (_, mergedPRs, mergedLogs) =>
    let allPRs := openPRs ++ mergedPRs
    if allPRs.isEmpty then
      some (none, openLogs ++ mergedLogs ++ [noPRsLog])
    else
      let filePath := cfg.repoSlug ++ "_prs.xlsx"
      some (some ⟨filePath, "Pull Requests", allPRs⟩,
        openLogs ++ mergedLogs ++ [savedLog filePath])
  | _, _ => none

/-- The whole program: load configuration (throwing before any network
activity when a required setting is missing), then export. -/
def runProgram (env : String → Option String) (httpPR : Http PR)
    (httpC : Http Commit) (sinceDate : String) (cfuel fuel : Nat) :
    Option (Except String (Option ExportFile × List LogEntry)) :=
  match loadConfig env with
  | .error msg => some (.error msg)
  | .ok cfg =>
    (exportToExcel httpPR httpC cfg sinceDate cfuel fuel).map .ok

/-! ## Derived views of the fetcher, used to state properties -/

/-- The filter predicate of `fetchPRs`:
`new Date(pr.created_on) >= new Date(sinceDate)`. -/
def keepPR (sinceDate : String) (pr : PR) : Bool :=
  dateGE pr.created_on sinceDate

/-- The row `fetchPRs` builds for one kept pull request (contributor
lookup followed by the row literal); `none` when the contributor lookup
diverges or a timestamp is invalid. -/
def rowOf (httpC : Http Commit) (cfg : Config) (cfuel : Nat) (pr : PR) :
    Option OutputRow :=
  match getContributorsForPR httpC cfg cfuel pr.id with
  | some (contributors, _) => buildRow pr contributors
  | none => none

/-- The log lines the contributor lookup of one pull request emits. -/
def logsOf (httpC : Http Commit) (cfg : Config) (cfuel : Nat) (pr : PR) :
    List LogEntry :=
  match getContributorsForPR httpC cfg cfuel pr.id with
  | some (_, logs) => logs
  | none => []

/-- All kept records of a list of pages, in page order. -/
def keptOf (sinceDate : String) (ps : List (Page PR)) : List PR :=
  (ps.flatMap (·.values)).filter (keepPR sinceDate)

/-- Placeholder row (only used to state that each kept record maps to
exactly one row). -/
def defaultRow : OutputRow :=
  ⟨0, "", "", "", "", "", "", "", "", "", 0, ""⟩

/-- The rows of a state fetch in cursor-page order: page by page, each
page's kept records in order. -/
def pageRows (httpC : Http Commit) (cfg : Config) (cfuel : Nat)
    (sinceDate : String) (ps : List (Page PR)) : List OutputRow :=
  ps.flatMap (fun p => (p.values.filter (keepPR sinceDate)).filterMap
    (rowOf httpC cfg cfuel))

/-- Decidable equality for `Except`, so that concrete loop outcomes can be
checked by evaluation. -/
instance {ε α : Type} [DecidableEq ε] [DecidableEq α] :
    DecidableEq (Except ε α) := fun x y =>
  match x, y with
  | .ok a, .ok b =>
    if h : a = b then isTrue (by rw [h])
    else isFalse (fun hcon => h (Except.ok.inj hcon))
  | .error e, .error f =>
    if h : e = f then isTrue (by rw [h])
    else isFalse (fun hcon => h (Except.error.inj hcon))
  | .ok _, .error _ => isFalse (fun hcon => Except.noConfusion hcon)
  | .error _, .ok _ => isFalse (fun hcon => Except.noConfusion hcon)

/-! ## Concrete fixtures for witnesses -/

def witCfg : Config := ⟨"u", "p", "w", "dreams"⟩

def witSince : String := "2024-01-01T00:00:00.000Z"

def witPR : PR :=
  ⟨10, "t", "OPEN", ⟨"Alice"⟩, "2024-01-15T10:30:00.000Z",
   "2024-01-16T11:00:00.000Z", none, none, none, none, none⟩

def witPROld : PR :=
  ⟨11, "old", "OPEN", ⟨"Alice"⟩, "2023-01-15T10:30:00.000Z",
   "2023-01-16T11:00:00.000Z", some "dev", some "main", some "http://x",
   some 3, some "Zed"⟩

def witCommitBob : Commit := ⟨some ⟨some ⟨some "Bob"⟩, none⟩⟩

def witCommitCarol : Commit := ⟨some ⟨none, some "Carol Smith <carol@x.com>"⟩⟩

def witCommitNone : Commit := ⟨none⟩

def witHttpC : Http Commit := fun u =>
  if u = commitsUrl witCfg 10 then .ok ⟨[witCommitBob, witCommitCarol], none⟩
  else .error ⟨none, "nf"⟩

def witHttpPR : Http PR := fun u =>
  if u = prsUrl witCfg "OPEN" then .ok ⟨[witPR, witPROld], some "page2"⟩
  else if u = "page2" then .ok ⟨[witPROld], none⟩
  else .error ⟨some "body", "msg"⟩

def witHttpCErr : Http Commit := fun _ => .error ⟨none, "down"⟩

def witHttpPRErr : Http PR := fun _ => .error ⟨some "body", "msg"⟩

def witRow : OutputRow :=
  ⟨10, "t", "OPEN", "Alice", "2024-01-15 10:30:00", "2024-01-16 11:00:00",
   "Unknown", "Unknown", "N/A", "Alice, Bob", 0, "N/A"⟩

def witRowA : OutputRow :=
  ⟨10, "t", "OPEN", "Alice", "2024-01-15 10:30:00", "2024-01-16 11:00:00",
   "Unknown", "Unknown", "N/A", "Alice", 0, "N/A"⟩

def witRowFull : OutputRow :=
  ⟨10, "t", "OPEN", "Alice", "2024-01-15 10:30:00", "2024-01-16 11:00:00",
   "Unknown", "Unknown", "N/A", "Alice, Bob, Carol Smith", 0, "N/A"⟩

def witTrO : List String := [prsUrl witCfg "OPEN", "page2"]

def witPsO : List (Page PR) :=
  [⟨[witPR, witPROld], some "page2"⟩, ⟨[witPROld], none⟩]

def witEnvNoRepo : String → Option String := fun k =>
  if k = "BITBUCKET_USERNAME" then some "u"
  else if k = "BITBUCKET_APP_PASSWORD" then some "p"
  else if k = "BITBUCKET_WORKSPACE" then some "w"
  else none

def witEnvOtherRepo : String → Option String := fun k =>
  if k = "BITBUCKET_REPO_SLUG" then some "other" else witEnvNoRepo k

def witEnvEmpty : String → Option String := fun _ => none

def witHttpPR2 : Http PR := fun u =>
  if u = prsUrl witCfg "OPEN" then .ok ⟨[witPR, witPROld], some "page2"⟩
  else if u = "page2" then .ok ⟨[witPROld], none⟩
  else if u = prsUrl witCfg "MERGED" then .ok ⟨[], none⟩
  else .error ⟨some "body", "msg"⟩

def witPageM : Page PR := ⟨[], none⟩

/-! ## Lemmas about the JavaScript `Set` model -/

theorem mem_addToSet {l : List String} {x y : String} :
    x ∈ addToSet l y ↔ x ∈ l ∨ x = y := by
  unfold addToSet
  split
  · rename_i hy
    constructor
    · exact Or.inl
    · rintro (h | rfl)
      · exact h
      · exact hy
  · simp [List.mem_append]

theorem nodup_addToSet {l : List String} {y : String} (h : l.Nodup) :
    (addToSet l y).Nodup := by
  unfold addToSet
  split
  · exact h
  · rename_i hy
    refine List.Nodup.append h (List.nodup_singleton y) ?_
    intro a ha hb
    simp only [List.mem_singleton] at hb
    subst hb
    exact hy ha

theorem foldl_addToSet_nodup (l acc : List String) (h : acc.Nodup) :
    (List.foldl addToSet acc l).Nodup := by
  induction l generalizing acc with
  | nil => exact h
  | cons x xs ih => exact ih _ (nodup_addToSet h)

theorem foldl_addToSet_exists_suffix (l acc : List String) :
    ∃ t, List.foldl addToSet acc l = acc ++ t := by
  induction l generalizing acc with
  | nil => exact ⟨[], (List.append_nil acc).symm⟩
  | cons y ys ih =>
    have hstep : ∃ u, addToSet acc y = acc ++ u := by
      unfold addToSet
      split
      · exact ⟨[], (List.append_nil acc).symm⟩
      · exact ⟨[y], rfl⟩
    rcases hstep with ⟨u, hu⟩
    rcases ih (addToSet acc y) with ⟨t, ht⟩
    exact ⟨u ++ t, by rw [List.foldl_cons, ht, hu, List.append_assoc]⟩

theorem jsSetOfList_nodup (l : List String) : (jsSetOfList l).Nodup :=
  foldl_addToSet_nodup l [] List.nodup_nil

theorem jsSetOfList_cons_head (a : String) (l : List String) :
    ∃ t, jsSetOfList (a :: l) = a :: t := by
  unfold jsSetOfList
  rcases foldl_addToSet_exists_suffix l [a] with ⟨t, ht⟩
  refine ⟨t, ?_⟩
  rw [List.foldl_cons]
  have : addToSet [] a = [a] := by simp [addToSet]
  rw [this] at *
  simpa using ht

theorem intercalate_go_prefix (s : String) (t : List String) (acc : String) :
    ∃ r, String.intercalate.go acc s t = acc ++ r := by
  induction t generalizing acc with
  | nil => exact ⟨"", by simp [String.intercalate.go]⟩
  | cons b bs ih =>
    rcases ih (acc ++ s ++ b) with ⟨r, hr⟩
    refine ⟨s ++ b ++ r, ?_⟩
    have hgo : String.intercalate.go acc s (b :: bs) =
        String.intercalate.go (acc ++ s ++ b) s bs := rfl
    rw [hgo, hr]
    simp [String.append_assoc]

theorem intercalate_cons_prefix (s a : String) (t : List String) :
    ∃ r, String.intercalate s (a :: t) = a ++ r :=
  intercalate_go_prefix s t a

/-- C2: every row `fetchPRs` produces renders its `Contributors` field as
the comma-join of a name list that contains the pull request author's
display name (in fact as its first element, so the field starts with the
author's name) and has no duplicate names; this holds for an arbitrary
resolved contributor list, including one that repeats the author and the
empty list a failed commit-author lookup resolves to. -/
theorem claimC2 (pr : PR) (cs : List String) (row : OutputRow)
    (h : buildRow pr cs = some row) :
    ∃ names, row.Contributors = String.intercalate ", " names ∧
      pr.author.display_name ∈ names ∧ names.Nodup ∧
      ∃ r, row.Contributors = pr.author.display_name ++ r := by
  unfold buildRow at h
  split at h
  · rename_i createdStr updatedStr hc hu
    injection h with h
    subst h
    refine ⟨jsSetOfList (pr.author.display_name :: cs), rfl, ?_, jsSetOfList_nodup _, ?_⟩
    · rcases jsSetOfList_cons_head pr.author.display_name cs with ⟨t, ht⟩
      rw [ht]
      exact List.mem_cons_self _ _
    · rcases jsSetOfList_cons_head pr.author.display_name cs with ⟨t, ht⟩
      rw [show (OutputRow.Contributors
          { ID := pr.id, Title := pr.title, State := pr.state,
            Developer := pr.author.display_name, Created_On := createdStr,
            Updated_On := updatedStr,
            Source_Branch := jsOr pr.source_branch "Unknown",
            Destination_Branch := jsOr pr.destination_branch "Unknown",
            PR_Link := jsOr pr.html_href "N/A",
            Contributors := String.intercalate ", "
              (jsSetOfList (pr.author.display_name :: cs)),
            Comment_Count := pr.comments_count.getD 0,
            Closed_By := jsOr pr.closed_by "N/A" }) =
          String.intercalate ", " (jsSetOfList (pr.author.display_name :: cs))
          from rfl, ht]
      exact intercalate_cons_prefix ", " pr.author.display_name t
  · exact absurd h (by simp)

/-- Witness for C2 at a concrete input: author "Alice", resolved
contributors ["Bob", "Alice", "Bob"] overlapping the author. -/
theorem claimC2_witness :
    buildRow witPR ["Bob", "Alice", "Bob"] = some witRow ∧
    (∃ names, witRow.Contributors = String.intercalate ", " names ∧
      witPR.author.display_name ∈ names ∧ names.Nodup ∧
      ∃ r, witRow.Contributors = witPR.author.display_name ++ r) :=
  ⟨by decide, claimC2 witPR ["Bob", "Alice", "Bob"] witRow (by decide)⟩

/-- C7: per commit, when the registered-user display name is present and
non-empty it is the name added; otherwise, when a raw author string is
present and non-empty, the name added is the portion of the raw string
before the first `<`, trimmed of whitespace (`parseRawName`). -/
theorem claimC7 (c : Commit) (acc : List String) :
    (∀ d, authorDisplayName c = some d → d ≠ "" →
      processCommit acc c = addToSet acc d) ∧
    (jsTruthy (authorDisplayName c) = false →
      ∀ r, authorRaw c = some r → r ≠ "" →
      processCommit acc c = addToSet acc (parseRawName r)) := by
  constructor
  · intro d hd hne
    have ht : jsTruthy (some d) = true := by simpa [jsTruthy] using hne
    simp [processCommit, hd, ht]
  · intro hfalse r hr hne
    have ht : jsTruthy (some r) = true := by simpa [jsTruthy] using hne
    simp [processCommit, hfalse, hr, ht]

/-- Witness for C7: a commit with a registered display name "Bob" adds
"Bob"; a commit with no display name and raw author string
"Carol Smith &lt;carol@x.com&gt;" adds "Carol Smith". -/
theorem claimC7_witness :
    processCommit [] witCommitBob = addToSet [] "Bob" ∧
    processCommit [] witCommitCarol =
      addToSet [] (parseRawName "Carol Smith <carol@x.com>") ∧
    parseRawName "Carol Smith <carol@x.com>" = "Carol Smith" :=
  ⟨(claimC7 witCommitBob []).1 "Bob" (by decide) (by decide),
   (claimC7 witCommitCarol []).2 (by decide) "Carol Smith <carol@x.com>"
     (by decide) (by decide),
   by decide⟩

/-- C9: a commit whose author has neither a truthy registered-user display
name nor a truthy raw author string (absent author, absent fields, or
empty strings, which JavaScript treats as falsy) contributes nothing to
the contributor set. -/
theorem claimC9 (c : Commit) (acc : List String)
    (h1 : jsTruthy (authorDisplayName c) = false)
    (h2 : jsTruthy (authorRaw c) = false) :
    processCommit acc c = acc := by
  simp [processCommit, h1, h2]

/-- Witness for C9: a commit with no author record adds nothing to a
non-empty accumulated set. -/
theorem claimC9_witness :
    jsTruthy (authorDisplayName witCommitNone) = false ∧
    jsTruthy (authorRaw witCommitNone) = false ∧
    processCommit ["x"] witCommitNone = ["x"] :=
  ⟨by decide, by decide, claimC9 witCommitNone ["x"] (by decide) (by decide)⟩

/-! ## Lemmas about the date formatting pipeline -/

theorem digit?_digitChar (d : Nat) (h : d < 10) :
    digit? (Nat.digitChar d) = some d := by
  have hall : ∀ e, e < 10 → digit? (Nat.digitChar e) = some e := by decide
  exact hall d h

theorem isDigit_digitChar (d : Nat) (h : d < 10) :
    (Nat.digitChar d).isDigit = true := by
  have hall : ∀ e, e < 10 → (Nat.digitChar e).isDigit = true := by decide
  exact hall d h

theorem isDigit_of_mem_pad2 {c : Char} {n : Nat} (h : c ∈ pad2 n) :
    c.isDigit = true := by
  simp only [pad2, List.mem_cons, List.not_mem_nil, or_false] at h
  rcases h with rfl | rfl
  · exact isDigit_digitChar _ (Nat.mod_lt _ (by decide))
  · exact isDigit_digitChar _ (Nat.mod_lt _ (by decide))

theorem isDigit_of_mem_pad4 {c : Char} {n : Nat} (h : c ∈ pad4 n) :
    c.isDigit = true := by
  simp only [pad4, List.mem_cons, List.not_mem_nil, or_false] at h
  rcases h with rfl | rfl | rfl | rfl <;>
    exact isDigit_digitChar _ (Nat.mod_lt _ (by decide))

/-- Characters of the `YYYY-MM-DD` prefix of the serialized timestamp are
digits or `-`. -/
theorem not_mem_datePart {c : Char} (t : Timestamp) (hdig : c.isDigit = false)
    (hdash : c ≠ '-') :
    c ∉ pad4 t.year ++ '-' :: pad2 t.month ++ '-' :: pad2 t.day := by
  intro hm
  rcases List.mem_append.1 hm with h | h
  · rcases List.mem_append.1 h with h | h
    · rw [isDigit_of_mem_pad4 h] at hdig
      exact Bool.noConfusion hdig
    · rcases List.mem_cons.1 h with h | h
      · exact hdash h
      · rw [isDigit_of_mem_pad2 h] at hdig
        exact Bool.noConfusion hdig
  · rcases List.mem_cons.1 h with h | h
    · exact hdash h
    · rw [isDigit_of_mem_pad2 h] at hdig
      exact Bool.noConfusion hdig

/-- Characters of the `YYYY-MM-DD HH:MM:SS` display are digits or one of
`-`, space, `:`; in particular `.` is not among them. -/
theorem dot_not_mem_display (t : Timestamp) :
    '.' ∉ (pad4 t.year ++ '-' :: pad2 t.month ++ '-' :: pad2 t.day) ++ ' ' ::
      (pad2 t.hour ++ ':' :: pad2 t.minute ++ ':' :: pad2 t.second) := by
  intro hm
  rcases List.mem_append.1 hm with h | h
  · exact not_mem_datePart t (by decide) (by decide) h
  · rcases List.mem_cons.1 h with h | h
    · exact absurd h (by decide)
    · rcases List.mem_append.1 h with h | h
      · rcases List.mem_append.1 h with h | h
        · exact absurd (isDigit_of_mem_pad2 h) (by decide)
        · rcases List.mem_cons.1 h with h | h
          · exact absurd h (by decide)
          · exact absurd (isDigit_of_mem_pad2 h) (by decide)
      · rcases List.mem_cons.1 h with h | h
        · exact absurd h (by decide)
        · exact absurd (isDigit_of_mem_pad2 h) (by decide)

theorem jsReplaceFirstT_append {l1 l2 : List Char} (h : 'T' ∉ l1) :
    jsReplaceFirstT (l1 ++ 'T' :: l2) = l1 ++ ' ' :: l2 := by
  induction l1 with
  | nil => simp [jsReplaceFirstT]
  | cons c cs ih =>
    have hc : c ≠ 'T' := fun heq => h (heq ▸ List.mem_cons_self c cs)
    have hcs : 'T' ∉ cs := fun hmm => h (List.mem_cons_of_mem c hmm)
    simp [jsReplaceFirstT, hc, ih hcs]

theorem takeUntilChar_append {stop : Char} {l1 l2 : List Char}
    (h : stop ∉ l1) : takeUntilChar stop (l1 ++ stop :: l2) = l1 := by
  induction l1 with
  | nil => simp [takeUntilChar]
  | cons c cs ih =>
    have hc : c ≠ stop := by
      intro heq
      subst heq
      exact h (List.mem_cons_self _ _)
    have hcs : stop ∉ cs := fun hmm => h (List.mem_cons_of_mem c hmm)
    simp [takeUntilChar, hc, ih hcs]

/-- The replace-then-split pipeline on the generic serialized shape
`A-B-CTD:E:F.Gz`: the `T` becomes a space and everything from the first
`.` on is dropped. -/
theorem pipeline_generic (A B C D E F G : List Char) (z : Char)
    (hT : 'T' ∉ A ++ '-' :: B ++ '-' :: C)
    (hdot : '.' ∉ (A ++ '-' :: B ++ '-' :: C) ++ ' ' ::
      (D ++ ':' :: E ++ ':' :: F)) :
    takeUntilChar '.' (jsReplaceFirstT
      (A ++ '-' :: B ++ '-' :: C ++ 'T' :: D ++ ':' :: E ++ ':' :: F ++
        '.' :: G ++ [z])) =
      A ++ '-' :: B ++ '-' :: C ++ ' ' :: D ++ ':' :: E ++ ':' :: F := by
  have h1 : A ++ '-' :: B ++ '-' :: C ++ 'T' :: D ++ ':' :: E ++ ':' :: F ++
      '.' :: G ++ [z] =
      (A ++ '-' :: B ++ '-' :: C) ++ 'T' ::
        (D ++ ':' :: E ++ ':' :: F ++ '.' :: G ++ [z]) := by
    simp [List.append_assoc]
  have h2 : (A ++ '-' :: B ++ '-' :: C) ++ ' ' ::
      (D ++ ':' :: E ++ ':' :: F ++ '.' :: G ++ [z]) =
      ((A ++ '-' :: B ++ '-' :: C) ++ ' ' :: (D ++ ':' :: E ++ ':' :: F)) ++
        '.' :: (G ++ [z]) := by
    simp [List.append_assoc]
  rw [h1, jsReplaceFirstT_append hT, h2, takeUntilChar_append hdot]
  simp [List.append_assoc]

/-- The replace-then-split pipeline applied to the canonical serialization
yields the `YYYY-MM-DD HH:MM:SS` display. -/
theorem pipeline_toISOChars (t : Timestamp) :
    String.mk (takeUntilChar '.' (jsReplaceFirstT (toISOChars t))) =
      dateTimeDisplay t := by
  unfold toISOChars dateTimeDisplay
  rw [pipeline_generic (pad4 t.year) (pad2 t.month) (pad2 t.day)
    (pad2 t.hour) (pad2 t.minute) (pad2 t.second) (pad3 t.ms) 'Z'
    (not_mem_datePart t (by decide) (by decide)) (dot_not_mem_display t)]

/-- Characterization of `formatDate` on parseable input. -/
theorem formatDate_parse {s : String} {t : Timestamp}
    (h : parseISO s = some t) : formatDate s = some (dateTimeDisplay t) := by
  unfold formatDate
  rw [h, Option.map_some', pipeline_toISOChars]

theorem twoDigits_digitChar (a b : Nat) (ha : a < 10) (hb : b < 10) :
    twoDigits (Nat.digitChar a) (Nat.digitChar b) = some (a * 10 + b) := by
  simp [twoDigits, digit?_digitChar a ha, digit?_digitChar b hb]

theorem fourDigits_digitChar (a b c d : Nat) (ha : a < 10) (hb : b < 10)
    (hc : c < 10) (hd : d < 10) :
    fourDigits (Nat.digitChar a) (Nat.digitChar b) (Nat.digitChar c)
      (Nat.digitChar d) = some ((a * 10 + b) * 100 + (c * 10 + d)) := by
  simp [fourDigits, twoDigits_digitChar a b ha hb, twoDigits_digitChar c d hc hd]

theorem parseTail_digitChar (a b c : Nat) (ha : a < 10) (hb : b < 10)
    (hc : c < 10) :
    parseTail ['.', Nat.digitChar a, Nat.digitChar b, Nat.digitChar c, 'Z'] =
      some (a * 100 + b * 10 + c) := by
  simp [parseTail, digit?_digitChar a ha, digit?_digitChar b hb,
    digit?_digitChar c hc]

/-- Round trip: a valid timestamp survives serialize-then-parse. -/
theorem parseISO_toISOString (t : Timestamp) (hy : t.year ≤ 9999)
    (hv : validTimestamp t = true) :
    parseISO (Timestamp.toISOString t) = some t := by
  obtain ⟨y, mo, d, h, mi, s, ms⟩ := t
  have hb : 1 ≤ mo ∧ mo ≤ 12 ∧ 1 ≤ d ∧ d ≤ daysInMonth y mo ∧
      h ≤ 23 ∧ mi ≤ 59 ∧ s ≤ 59 ∧ ms ≤ 999 := of_decide_eq_true hv
  have hmo : mo ≤ 12 := hb.2.1
  have hh : h ≤ 23 := hb.2.2.2.2.1
  have hmi : mi ≤ 59 := hb.2.2.2.2.2.1
  have hs : s ≤ 59 := hb.2.2.2.2.2.2.1
  have hms : ms ≤ 999 := hb.2.2.2.2.2.2.2
  have hd31 : d ≤ 31 := by
    have := hb.2.2.2.1
    have hdm : daysInMonth y mo ≤ 31 := by
      unfold daysInMonth
      split
      · split <;> omega
      · split <;> omega
    omega
  show parseISOChars (toISOChars ⟨y, mo, d, h, mi, s, ms⟩) =
    some ⟨y, mo, d, h, mi, s, ms⟩
  simp only [toISOChars, pad4, pad3, pad2, List.cons_append, List.nil_append]
  simp only [parseISOChars]
  rw [fourDigits_digitChar _ _ _ _ (Nat.mod_lt _ (by decide))
      (Nat.mod_lt _ (by decide)) (Nat.mod_lt _ (by decide))
      (Nat.mod_lt _ (by decide)),
    twoDigits_digitChar _ _ (Nat.mod_lt _ (by decide)) (Nat.mod_lt _ (by decide)),
    twoDigits_digitChar _ _ (Nat.mod_lt _ (by decide)) (Nat.mod_lt _ (by decide)),
    twoDigits_digitChar _ _ (Nat.mod_lt _ (by decide)) (Nat.mod_lt _ (by decide)),
    twoDigits_digitChar _ _ (Nat.mod_lt _ (by decide)) (Nat.mod_lt _ (by decide)),
    twoDigits_digitChar _ _ (Nat.mod_lt _ (by decide)) (Nat.mod_lt _ (by decide)),
    parseTail_digitChar _ _ _ (Nat.mod_lt _ (by decide))
      (Nat.mod_lt _ (by decide)) (Nat.mod_lt _ (by decide))]
  have hy2 : y ≤ 9999 := hy
  have e1 : (y / 1000 % 10 * 10 + y / 100 % 10) * 100 +
      (y / 10 % 10 * 10 + y % 10) = y := by omega
  have e2 : mo / 10 % 10 * 10 + mo % 10 = mo := by omega
  have e3 : d / 10 % 10 * 10 + d % 10 = d := by omega
  have e4 : h / 10 % 10 * 10 + h % 10 = h := by omega
  have e5 : mi / 10 % 10 * 10 + mi % 10 = mi := by omega
  have e6 : s / 10 % 10 * 10 + s % 10 = s := by omega
  have e7 : ms / 100 % 10 * 100 + ms / 10 % 10 * 10 + ms % 10 = ms := by omega
  simp only [e1, e2, e3, e4, e5, e6, e7, Option.some_bind]
  simp [hv]

/-- C10: the `Created_On` and `Updated_On` fields of every produced row
are the pull request's parsed timestamps rendered as
`YYYY-MM-DD HH:MM:SS` (`dateTimeDisplay`); moreover, on a canonically
serialized ISO-8601 timestamp, `formatDate` is exactly the map that turns
the `T` separator into a space and drops the fractional seconds and the
`Z` suffix, i.e. it sends `toISOString` output to the `YYYY-MM-DD
HH:MM:SS` prefix. -/
theorem claimC10 (pr : PR) (cs : List String) (row : OutputRow)
    (h : buildRow pr cs = some row) :
    (∃ tc, parseISO pr.created_on = some tc ∧
      row.Created_On = dateTimeDisplay tc) ∧
    (∃ tu, parseISO pr.updated_on = some tu ∧
      row.Updated_On = dateTimeDisplay tu) ∧
    (∀ t : Timestamp, t.year ≤ 9999 → validTimestamp t = true →
      formatDate (Timestamp.toISOString t) = some (dateTimeDisplay t)) := by
  unfold buildRow at h
  split at h
  · rename_i createdStr updatedStr hc hu
    injection h with h
    subst h
    refine ⟨?_, ?_, ?_⟩
    · cases hparse : parseISO pr.created_on with
      | none =>
        unfold formatDate at hc
        rw [hparse] at hc
        exact absurd hc (by simp)
      | some tc =>
        refine ⟨tc, rfl, ?_⟩
        have hfmt := formatDate_parse hparse
        rw [hfmt] at hc
        injection hc with hc
        show createdStr = dateTimeDisplay tc
        exact hc.symm
    · cases hparse : parseISO pr.updated_on with
      | none =>
        unfold formatDate at hu
        rw [hparse] at hu
        exact absurd hu (by simp)
      | some tu =>
        refine ⟨tu, rfl, ?_⟩
        have hfmt := formatDate_parse hparse
        rw [hfmt] at hu
        injection hu with hu
        show updatedStr = dateTimeDisplay tu
        exact hu.symm
    · intro t hy hv
      exact formatDate_parse (parseISO_toISOString t hy hv)
  · exact absurd h (by simp)

/-! ## Lemmas about the page loop -/

theorem pageLoop_head {α : Type} {http : Http α} {fuel : Nat} {u : String}
    {tr : List String} {ps : List (Page α)} {res : Option ErrInfo}
    (h : pageLoop http fuel (some u) = some (tr, ps, res)) :
    ∃ tr2, tr = u :: tr2 := by
  cases fuel with
  | zero => exact absurd h (by simp [pageLoop])
  | succ n =>
    unfold pageLoop at h
    split at h
    · simp only [Option.some.injEq, Prod.mk.injEq] at h
      exact ⟨[], h.1.symm⟩
    · split at h
      · exact absurd h (by simp)
      · simp only [Option.some.injEq, Prod.mk.injEq] at h
        rename_i tr2 ps2 res2 hrec
        exact ⟨tr2, h.1.symm⟩

theorem pageLoop_none {α : Type} {http : Http α} {fuel : Nat}
    {tr : List String} {ps : List (Page α)} {res : Option ErrInfo}
    (h : pageLoop http fuel none = some (tr, ps, res)) :
    tr = [] ∧ ps = [] ∧ res = none := by
  simp only [pageLoop, Option.some.injEq, Prod.mk.injEq] at h
  exact ⟨h.1.symm, h.2.1.symm, h.2.2.symm⟩

/-- Every pair of consecutive URLs in a page-loop trace is linked by the
`next` field of the response to the former. -/
theorem pageLoop_chain {α : Type} {http : Http α} :
    ∀ {fuel : Nat} {u0 : Option String} {tr : List String}
      {ps : List (Page α)} {res : Option ErrInfo},
    pageLoop http fuel u0 = some (tr, ps, res) →
    ∀ i u v, tr[i]? = some u → tr[i + 1]? = some v →
    ∃ p, http u = .ok p ∧ normNext p.next = some v := by
  intro fuel
  induction fuel with
  | zero =>
    intro u0 tr ps res h i u v hu hv
    cases u0 with
    | none =>
      obtain ⟨rfl, -, -⟩ := pageLoop_none h
      simp at hu
    | some u1 => exact absurd h (by simp [pageLoop])
  | succ n ih =>
    intro u0 tr ps res h i u v hu hv
    cases u0 with
    | none =>
      obtain ⟨rfl, -, -⟩ := pageLoop_none h
      simp at hu
    | some url =>
      unfold pageLoop at h
      split at h
      · simp only [Option.some.injEq, Prod.mk.injEq] at h
        obtain ⟨htr, -, -⟩ := h
        subst htr
        simp at hv
      · rename_i p hh
        split at h
        · exact absurd h (by simp)
        · rename_i tr2 ps2 res2 hrec
          simp only [Option.some.injEq, Prod.mk.injEq] at h
          obtain ⟨htr, -, -⟩ := h
          subst htr
          cases i with
          | zero =>
            simp only [List.getElem?_cons_zero, Option.some.injEq] at hu
            subst hu
            cases hnext : normNext p.next with
            | none =>
              rw [hnext] at hrec
              obtain ⟨rfl, -, -⟩ := pageLoop_none hrec
              simp at hv
            | some u2 =>
              rw [hnext] at hrec
              obtain ⟨tr3, rfl⟩ := pageLoop_head hrec
              simp only [List.getElem?_cons_succ, List.getElem?_cons_zero,
                Option.some.injEq] at hv
              subst hv
              exact ⟨p, hh, hnext⟩
          | succ j =>
            simp only [List.getElem?_cons_succ] at hu hv
            exact ih hrec j u v hu hv

/-- Finite `next` chains make the page loop terminate within matching
fuel. -/
theorem pageLoop_isSome {α : Type} {http : Http α} :
    ∀ {n : Nat} {u : Option String}, stepN http n u = none →
    (pageLoop http n u).isSome = true := by
  intro n
  induction n with
  | zero =>
    intro u h
    have hu : u = none := h
    subst hu
    simp [pageLoop]
  | succ n ih =>
    intro u h
    cases u with
    | none => simp [pageLoop]
    | some url =>
      unfold pageLoop
      cases hh : http url with
      | error e => simp
      | ok p =>
        have hstep : stepN http n (normNext p.next) = none := by
          have hx : stepN http (n + 1) (some url) =
              stepN http n (nextUrlOf http url) := rfl
          rw [hx] at h
          rw [show nextUrlOf http url = normNext p.next from by
            simp [nextUrlOf, hh]] at h
          exact h
        have hrec := ih hstep
        cases hpl : pageLoop http n (normNext p.next) with
        | none => rw [hpl] at hrec; exact absurd hrec (by simp)
        | some trip =>
          obtain ⟨tr2, ps2, res2⟩ := trip
          simp [hpl]

/-- When every contributor lookup converges, processing a page of kept
pull requests converges. -/
theorem processPRs_isSome {httpC : Http Commit} {cfg : Config} {cfuel : Nat}
    (hC : ∀ prId, (getContributorsForPR httpC cfg cfuel prId).isSome = true) :
    ∀ l : List PR, (processPRs httpC cfg cfuel l).isSome = true := by
  intro l
  induction l with
  | nil => simp [processPRs]
  | cons pr rest ih =>
    cases hg : getContributorsForPR httpC cfg cfuel pr.id with
    | none =>
      have := hC pr.id
      rw [hg] at this
      exact absurd this (by simp)
    | some pair =>
      obtain ⟨cs, logs⟩ := pair
      cases hrec : processPRs httpC cfg cfuel rest with
      | none => rw [hrec] at ih; exact absurd ih (by simp)
      | some pair2 =>
        obtain ⟨res2, logs2⟩ := pair2
        unfold processPRs
        rw [hg, hrec]
        cases hb : buildRow pr cs <;> cases res2 <;> simp [hb]

theorem fetchLoop_head {httpPR : Http PR} {httpC : Http Commit}
    {cfg : Config} {sinceDate : String} {cfuel fuel : Nat} {u : String}
    {tr : List String} {res : Except ErrInfo (List OutputRow)}
    {logs : List LogEntry}
    (h : fetchLoop httpPR httpC cfg sinceDate cfuel fuel (some u) =
      some (tr, res, logs)) :
    ∃ tr2, tr = u :: tr2 := by
  cases fuel with
  | zero => exact absurd h (by simp [fetchLoop])
  | succ n =>
    unfold fetchLoop at h
    split at h
    · simp only [Option.some.injEq, Prod.mk.injEq] at h
      exact ⟨[], h.1.symm⟩
    · split at h
      · exact absurd h (by simp)
      · simp only [Option.some.injEq, Prod.mk.injEq] at h
        exact ⟨[], h.1.symm⟩
      · split at h
        · exact absurd h (by simp)
        · rename_i tr2 rest2 logs2 hrec
          simp only [Option.some.injEq, Prod.mk.injEq] at h
          exact ⟨tr2, h.1.symm⟩
        · rename_i tr2 e2 logs2 hrec
          simp only [Option.some.injEq, Prod.mk.injEq] at h
          exact ⟨tr2, h.1.symm⟩

theorem fetchLoop_none {httpPR : Http PR} {httpC : Http Commit}
    {cfg : Config} {sinceDate : String} {cfuel fuel : Nat}
    {tr : List String} {res : Except ErrInfo (List OutputRow)}
    {logs : List LogEntry}
    (h : fetchLoop httpPR httpC cfg sinceDate cfuel fuel none =
      some (tr, res, logs)) :
    tr = [] := by
  simp only [fetchLoop, Option.some.injEq, Prod.mk.injEq] at h
  exact h.1.symm

/-- Every pair of consecutive URLs in the trace of the pull-request fetch
loop is linked by the `next` field of the response to the former. -/
theorem fetchLoop_chain {httpPR : Http PR} {httpC : Http Commit}
    {cfg : Config} {sinceDate : String} {cfuel : Nat} :
    ∀ {fuel : Nat} {u0 : Option String} {tr : List String}
      {res : Except ErrInfo (List OutputRow)} {logs : List LogEntry},
    fetchLoop httpPR httpC cfg sinceDate cfuel fuel u0 = some (tr, res, logs) →
    ∀ i u v, tr[i]? = some u → tr[i + 1]? = some v →
    ∃ p, httpPR u = .ok p ∧ normNext p.next = some v := by
  intro fuel
  induction fuel with
  | zero =>
    intro u0 tr res logs h i u v hu hv
    cases u0 with
    | none =>
      have := fetchLoop_none h
      subst this
      simp at hu
    | some u1 => exact absurd h (by simp [fetchLoop])
  | succ n ih =>
    intro u0 tr res logs h i u v hu hv
    cases u0 with
    | none =>
      have := fetchLoop_none h
      subst this
      simp at hu
    | some url =>
      unfold fetchLoop at h
      split at h
      · simp only [Option.some.injEq, Prod.mk.injEq] at h
        obtain ⟨htr, -, -⟩ := h
        subst htr
        simp at hv
      · rename_i p hh
        split at h
        · exact absurd h (by simp)
        · simp only [Option.some.injEq, Prod.mk.injEq] at h
          obtain ⟨htr, -, -⟩ := h
          subst htr
          simp at hv
        · rename_i rows1 logs1 hproc
          split at h
          · exact absurd h (by simp)
          · rename_i tr2 rows2 logs2 hrec
            simp only [Option.some.injEq, Prod.mk.injEq] at h
            obtain ⟨htr, -, -⟩ := h
            subst htr
            cases i with
            | zero =>
              simp only [List.getElem?_cons_zero, Option.some.injEq] at hu
              subst hu
              cases hnext : normNext p.next with
              | none =>
                rw [hnext] at hrec
                have := fetchLoop_none hrec
                subst this
                simp at hv
              | some u2 =>
                rw [hnext] at hrec
                obtain ⟨tr3, rfl⟩ := fetchLoop_head hrec
                simp only [List.getElem?_cons_succ, List.getElem?_cons_zero,
                  Option.some.injEq] at hv
                subst hv
                exact ⟨p, hh, hnext⟩
            | succ j =>
              simp only [List.getElem?_cons_succ] at hu hv
              exact ih hrec j u v hu hv
          · rename_i tr2 e2 logs2 hrec
            simp only [Option.some.injEq, Prod.mk.injEq] at h
            obtain ⟨htr, -, -⟩ := h
            subst htr
            cases i with
            | zero =>
              simp only [List.getElem?_cons_zero, Option.some.injEq] at hu
              subst hu
              cases hnext : normNext p.next with
              | none =>
                rw [hnext] at hrec
                have := fetchLoop_none hrec
                subst this
                simp at hv
              | some u2 =>
                rw [hnext] at hrec
                obtain ⟨tr3, rfl⟩ := fetchLoop_head hrec
                simp only [List.getElem?_cons_succ, List.getElem?_cons_zero,
                  Option.some.injEq] at hv
                subst hv
                exact ⟨p, hh, hnext⟩
            | succ j =>
              simp only [List.getElem?_cons_succ] at hu hv
              exact ih hrec j u v hu hv

/-- Finite `next` chains plus converging contributor lookups make the
pull-request fetch loop terminate within matching fuel. -/
theorem fetchLoop_isSome {httpPR : Http PR} {httpC : Http Commit}
    {cfg : Config} {sinceDate : String} {cfuel : Nat}
    (hC : ∀ prId, (getContributorsForPR httpC cfg cfuel prId).isSome = true) :
    ∀ {n : Nat} {u : Option String}, stepN httpPR n u = none →
    (fetchLoop httpPR httpC cfg sinceDate cfuel n u).isSome = true := by
  intro n
  induction n with
  | zero =>
    intro u h
    have hu : u = none := h
    subst hu
    simp [fetchLoop]
  | succ n ih =>
    intro u h
    cases u with
    | none => simp [fetchLoop]
    | some url =>
      unfold fetchLoop
      cases hh : httpPR url with
      | error e => simp
      | ok p =>
        have hstep : stepN httpPR n (normNext p.next) = none := by
          have hx : stepN httpPR (n + 1) (some url) =
              stepN httpPR n (nextUrlOf httpPR url) := rfl
          rw [hx] at h
          rw [show nextUrlOf httpPR url = normNext p.next from by
            simp [nextUrlOf, hh]] at h
          exact h
        have hproc := processPRs_isSome hC
          (p.values.filter (fun pr => dateGE pr.created_on sinceDate))
        cases hpp : processPRs httpC cfg cfuel
            (p.values.filter (fun pr => dateGE pr.created_on sinceDate)) with
        | none => rw [hpp] at hproc; exact absurd hproc (by simp)
        | some pair =>
          obtain ⟨res1, logs1⟩ := pair
          have hrec := ih hstep
          cases hpl : fetchLoop httpPR httpC cfg sinceDate cfuel n
              (normNext p.next) with
          | none => rw [hpl] at hrec; exact absurd hrec (by simp)
          | some trip =>
            obtain ⟨tr2, res2, logs2⟩ := trip
            cases res1 <;> cases res2 <;> simp [hpp, hpl]

/-- When every row converges, the `Promise.all` body maps each kept pull
request to exactly one row and accumulates the contributor logs. -/
theorem processPRs_ok {httpC : Http Commit} {cfg : Config} {cfuel : Nat} :
    ∀ {l : List PR},
    (∀ pr ∈ l, (rowOf httpC cfg cfuel pr).isSome = true) →
    processPRs httpC cfg cfuel l =
      some (.ok (l.filterMap (rowOf httpC cfg cfuel)),
        l.flatMap (logsOf httpC cfg cfuel)) := by
  intro l
  induction l with
  | nil => intro _; simp [processPRs]
  | cons pr rest ih =>
    intro hall
    have hpr := hall pr (List.mem_cons_self pr rest)
    have hrest : ∀ q ∈ rest, (rowOf httpC cfg cfuel q).isSome = true :=
      fun q hq => hall q (List.mem_cons_of_mem pr hq)
    cases hg : getContributorsForPR httpC cfg cfuel pr.id with
    | none =>
      unfold rowOf at hpr
      rw [hg] at hpr
      exact absurd hpr (by simp)
    | some pair =>
      obtain ⟨cs, logs⟩ := pair
      have hro : rowOf httpC cfg cfuel pr = buildRow pr cs := by
        unfold rowOf
        rw [hg]
      cases hb : buildRow pr cs with
      | none =>
        rw [hro, hb] at hpr
        exact absurd hpr (by simp)
      | some row =>
        have hlo : logsOf httpC cfg cfuel pr = logs := by
          unfold logsOf
          rw [hg]
        unfold processPRs
        rw [hg, ih hrest]
        simp [List.filterMap_cons, hro, hb, hlo]

theorem filterMap_eq_map_of_isSome {α β : Type} (f : α → Option β)
    (dflt : β) :
    ∀ {l : List α}, (∀ a ∈ l, (f a).isSome = true) →
    l.filterMap f = l.map (fun a => (f a).getD dflt) := by
  intro l
  induction l with
  | nil => intro _; rfl
  | cons x xs ih =>
    intro hall
    have hx := hall x (List.mem_cons_self x xs)
    cases hf : f x with
    | none =>
      rw [hf] at hx
      exact absurd hx (by simp)
    | some b =>
      rw [List.filterMap_cons, hf, List.map_cons,
        ih (fun a ha => hall a (List.mem_cons_of_mem x ha)), hf]
      simp

theorem keptOf_cons (sinceDate : String) (p : Page PR)
    (ps : List (Page PR)) :
    keptOf sinceDate (p :: ps) =
      p.values.filter (keepPR sinceDate) ++ keptOf sinceDate ps := by
  simp [keptOf, List.filter_append]

/-- Lockstep refinement: when the raw page chain is known and every kept
pull request's row converges, `fetchLoop` visits exactly the chain's URLs
and returns one row per kept record (or the chain's error), together with
the contributor logs of the kept records. -/
theorem fetchLoop_of_pageLoop {httpPR : Http PR} {httpC : Http Commit}
    {cfg : Config} {sinceDate : String} {cfuel : Nat} :
    ∀ {fuel : Nat} {u0 : Option String} {tr : List String}
      {ps : List (Page PR)} {res : Option ErrInfo},
    pageLoop httpPR fuel u0 = some (tr, ps, res) →
    (∀ pr ∈ keptOf sinceDate ps, (rowOf httpC cfg cfuel pr).isSome = true) →
    fetchLoop httpPR httpC cfg sinceDate cfuel fuel u0 = some (tr,
      (match res with
       | none => .ok ((keptOf sinceDate ps).filterMap (rowOf httpC cfg cfuel))
       | some e => .error e),
      (keptOf sinceDate ps).flatMap (logsOf httpC cfg cfuel)) := by
  intro fuel
  induction fuel with
  | zero =>
    intro u0 tr ps res h hall
    cases u0 with
    | none =>
      obtain ⟨rfl, rfl, rfl⟩ := pageLoop_none h
      simp [fetchLoop, keptOf]
    | some u1 => exact absurd h (by simp [pageLoop])
  | succ n ih =>
    intro u0 tr ps res h hall
    cases u0 with
    | none =>
      obtain ⟨rfl, rfl, rfl⟩ := pageLoop_none h
      simp [fetchLoop, keptOf]
    | some url =>
      unfold pageLoop at h
      split at h
      · rename_i e hh
        simp only [Option.some.injEq, Prod.mk.injEq] at h
        obtain ⟨h1, h2, h3⟩ := h
        subst h1
        subst h2
        subst h3
        unfold fetchLoop
        rw [hh]
        simp [keptOf]
      · rename_i p hh
        split at h
        · exact absurd h (by simp)
        · rename_i tr2 ps2 res2 hrec
          simp only [Option.some.injEq, Prod.mk.injEq] at h
          obtain ⟨h1, h2, h3⟩ := h
          subst h1
          subst h2
          subst h3
          have hall1 : ∀ pr ∈ p.values.filter (keepPR sinceDate),
              (rowOf httpC cfg cfuel pr).isSome = true := fun pr hpr =>
            hall pr (by
              rw [keptOf_cons]
              exact List.mem_append_left _ hpr)
          have hall2 : ∀ pr ∈ keptOf sinceDate ps2,
              (rowOf httpC cfg cfuel pr).isSome = true := fun pr hpr =>
            hall pr (by
              rw [keptOf_cons]
              exact List.mem_append_right _ hpr)
          have hproc := processPRs_ok hall1
          have hfetch := ih hrec hall2
          unfold fetchLoop
          rw [hh]
          rw [show (fun pr => dateGE pr.created_on sinceDate) =
            keepPR sinceDate from rfl]
          cases res2 <;>
            simp [hproc, hfetch, keptOf_cons, List.filterMap_append,
              List.flatMap_append]

/-- A page loop that ends in an error issued its last request to the URL
that failed, and issued nothing after it. -/
theorem pageLoop_last_error {α : Type} {http : Http α} :
    ∀ {fuel : Nat} {u0 : Option String} {tr : List String}
      {ps : List (Page α)} {e : ErrInfo},
    pageLoop http fuel u0 = some (tr, ps, some e) →
    ∃ u, tr.getLast? = some u ∧ http u = .error e := by
  intro fuel
  induction fuel with
  | zero =>
    intro u0 tr ps e h
    cases u0 with
    | none =>
      obtain ⟨-, -, hres⟩ := pageLoop_none h
      exact absurd hres (by simp)
    | some u1 => exact absurd h (by simp [pageLoop])
  | succ n ih =>
    intro u0 tr ps e h
    cases u0 with
    | none =>
      obtain ⟨-, -, hres⟩ := pageLoop_none h
      exact absurd hres (by simp)
    | some url =>
      unfold pageLoop at h
      split at h
      · rename_i e2 hh
        simp only [Option.some.injEq, Prod.mk.injEq] at h
        obtain ⟨h1, -, h3⟩ := h
        subst h1
        subst h3
        exact ⟨url, by simp, hh⟩
      · rename_i p hh
        split at h
        · exact absurd h (by simp)
        · rename_i tr2 ps2 res2 hrec
          simp only [Option.some.injEq, Prod.mk.injEq] at h
          obtain ⟨h1, -, h3⟩ := h
          subst h1
          subst h3
          obtain ⟨u, hu, he⟩ := ih hrec
          refine ⟨u, ?_, he⟩
          cases tr2 with
          | nil => simp at hu
          | cons a l =>
            rw [List.getLast?_cons_cons]
            exact hu

/-- The kept records of a page list, processed in page order. -/
theorem keptOf_flatMap (sinceDate : String) (f : PR → Option OutputRow) :
    ∀ ps : List (Page PR), (keptOf sinceDate ps).filterMap f =
      ps.flatMap (fun p => (p.values.filter (keepPR sinceDate)).filterMap f) := by
  intro ps
  induction ps with
  | nil => simp [keptOf]
  | cons p ps ih =>
    rw [keptOf_cons, List.filterMap_append, List.flatMap_cons, ih]

/-- C1: on a successful state fetch over pages `ps`, `fetchPRs` returns
exactly one `OutputRow` for each record whose `created_on` parses to a
time at or after the `sinceDate` snapshot (`dateGE`), in order, and no
row for any record strictly before the cutoff or with an unparseable
timestamp — the returned list is the image of the `dateGE`-filtered
record list under the row builder. -/
theorem claimC1 (httpPR : Http PR) (httpC : Http Commit) (cfg : Config)
    (sinceDate : String) (cfuel fuel : Nat) (state : String)
    (tr : List String) (ps : List (Page PR))
    (hpages : pageLoop httpPR fuel (some (prsUrl cfg state)) =
      some (tr, ps, none))
    (hrows : ∀ pr ∈ keptOf sinceDate ps,
      (rowOf httpC cfg cfuel pr).isSome = true) :
    (∃ logs, fetchPRs httpPR httpC cfg sinceDate cfuel fuel state =
      some (tr, (keptOf sinceDate ps).map
        (fun pr => (rowOf httpC cfg cfuel pr).getD defaultRow), logs)) ∧
    keptOf sinceDate ps = (ps.flatMap (·.values)).filter
      (fun pr => dateGE pr.created_on sinceDate) := by
  have hlock := fetchLoop_of_pageLoop hpages hrows
  refine ⟨⟨(keptOf sinceDate ps).flatMap (logsOf httpC cfg cfuel) ++
    [countLog state ((keptOf sinceDate ps).map
      (fun pr => (rowOf httpC cfg cfuel pr).getD defaultRow)).length], ?_⟩,
    rfl⟩
  unfold fetchPRs
  rw [hlock]
  rw [filterMap_eq_map_of_isSome (rowOf httpC cfg cfuel) defaultRow hrows]

/-- C3: when the `next`-link chain of a state fetch runs into a request
that throws error `e` (after pages `ps` were already received and their
kept records processed), `fetchPRs` returns normally with the empty list
for that state, appends a log line whose detail is the error's response
body when that is present and non-empty and its message otherwise, and
the failing URL is the last one requested — nothing is issued after it
and no request is retried. -/
theorem claimC3 (httpPR : Http PR) (httpC : Http Commit) (cfg : Config)
    (sinceDate : String) (cfuel fuel : Nat) (state : String)
    (tr : List String) (ps : List (Page PR)) (e : ErrInfo)
    (hpages : pageLoop httpPR fuel (some (prsUrl cfg state)) =
      some (tr, ps, some e))
    (hrows : ∀ pr ∈ keptOf sinceDate ps,
      (rowOf httpC cfg cfuel pr).isSome = true) :
    fetchPRs httpPR httpC cfg sinceDate cfuel fuel state =
      some (tr, [], (keptOf sinceDate ps).flatMap (logsOf httpC cfg cfuel)
        ++ [fetchErrLog state e]) ∧
    fetchErrLog state e =
      ⟨s!"Error fetching {state} PRs:", some (errDetail e)⟩ ∧
    (∀ dta, e.responseData = some dta → dta ≠ "" → errDetail e = dta) ∧
    (e.responseData = none → errDetail e = e.message) ∧
    (∃ u, tr.getLast? = some u ∧ httpPR u = .error e) := by
  have hlock := fetchLoop_of_pageLoop hpages hrows
  refine ⟨?_, rfl, ?_, ?_, pageLoop_last_error hpages⟩
  · unfold fetchPRs
    rw [hlock]
  · intro dta hd hne
    unfold errDetail jsOr
    rw [hd]
    simp [hne]
  · intro hd
    unfold errDetail jsOr
    rw [hd]

theorem pageRows_eq (httpC : Http Commit) (cfg : Config) (cfuel : Nat)
    (sinceDate : String) (ps : List (Page PR)) :
    (keptOf sinceDate ps).filterMap (rowOf httpC cfg cfuel) =
      pageRows httpC cfg cfuel sinceDate ps :=
  keptOf_flatMap sinceDate (rowOf httpC cfg cfuel) ps

/-- The exporter's outcome, given both state fetches' outcomes. -/
theorem exportToExcel_eq {httpPR : Http PR} {httpC : Http Commit}
    {cfg : Config} {sinceDate : String} {cfuel fuel : Nat}
    {trO trM : List String} {rowsO rowsM : List OutputRow}
    {logsO logsM : List LogEntry}
    (hO : fetchPRs httpPR httpC cfg sinceDate cfuel fuel "OPEN" =
      some (trO, rowsO, logsO))
    (hM : fetchPRs httpPR httpC cfg sinceDate cfuel fuel "MERGED" =
      some (trM, rowsM, logsM)) :
    exportToExcel httpPR httpC cfg sinceDate cfuel fuel =
      some (if (rowsO ++ rowsM).isEmpty
        then (none, logsO ++ logsM ++ [noPRsLog])
        else (some ⟨cfg.repoSlug ++ "_prs.xlsx", "Pull Requests",
            rowsO ++ rowsM⟩,
          logsO ++ logsM ++ [savedLog (cfg.repoSlug ++ "_prs.xlsx")])) := by
  unfold exportToExcel
  rw [hO, hM]
  cases hemp : (rowsO ++ rowsM).isEmpty <;> simp [hemp]

/-- C5: given successful OPEN and MERGED fetches over page lists `psO` and
`psM`, the exported sheet (when one is written) holds exactly the OPEN
rows followed by the MERGED rows, each state's list in cursor-page order
(page 1's kept records, then page 2's, and so on). -/
theorem claimC5 (httpPR : Http PR) (httpC : Http Commit) (cfg : Config)
    (sinceDate : String) (cfuel fuel : Nat)
    (trO trM : List String) (psO psM : List (Page PR))
    (hO : pageLoop httpPR fuel (some (prsUrl cfg "OPEN")) =
      some (trO, psO, none))
    (hM : pageLoop httpPR fuel (some (prsUrl cfg "MERGED")) =
      some (trM, psM, none))
    (hrowsO : ∀ pr ∈ keptOf sinceDate psO,
      (rowOf httpC cfg cfuel pr).isSome = true)
    (hrowsM : ∀ pr ∈ keptOf sinceDate psM,
      (rowOf httpC cfg cfuel pr).isSome = true) :
    ∃ out logs, exportToExcel httpPR httpC cfg sinceDate cfuel fuel =
      some (out, logs) ∧
      (pageRows httpC cfg cfuel sinceDate psO ++
          pageRows httpC cfg cfuel sinceDate psM ≠ [] →
        ∃ f, out = some f ∧
          f.rows = pageRows httpC cfg cfuel sinceDate psO ++
            pageRows httpC cfg cfuel sinceDate psM ∧
          f.sheet = "Pull Requests" ∧
          f.path = cfg.repoSlug ++ "_prs.xlsx") ∧
      (pageRows httpC cfg cfuel sinceDate psO ++
          pageRows httpC cfg cfuel sinceDate psM = [] → out = none) := by
  have hlockO := fetchLoop_of_pageLoop hO hrowsO
  have hlockM := fetchLoop_of_pageLoop hM hrowsM
  have hfO : fetchPRs httpPR httpC cfg sinceDate cfuel fuel "OPEN" =
      some (trO, pageRows httpC cfg cfuel sinceDate psO,
        (keptOf sinceDate psO).flatMap (logsOf httpC cfg cfuel) ++
          [countLog "OPEN"
            (pageRows httpC cfg cfuel sinceDate psO).length]) := by
    unfold fetchPRs
    rw [hlockO]
    simp [pageRows_eq]
  have hfM : fetchPRs httpPR httpC cfg sinceDate cfuel fuel "MERGED" =
      some (trM, pageRows httpC cfg cfuel sinceDate psM,
        (keptOf sinceDate psM).flatMap (logsOf httpC cfg cfuel) ++
          [countLog "MERGED"
            (pageRows httpC cfg cfuel sinceDate psM).length]) := by
    unfold fetchPRs
    rw [hlockM]
    simp [pageRows_eq]
  have hexp := exportToExcel_eq hfO hfM
  by_cases hemp : (pageRows httpC cfg cfuel sinceDate psO ++
      pageRows httpC cfg cfuel sinceDate psM).isEmpty = true
  · rw [if_pos hemp] at hexp
    exact ⟨none, _, hexp,
      fun hne => absurd (List.isEmpty_iff.mp hemp) hne, fun _ => rfl⟩
  · rw [if_neg hemp] at hexp
    refine ⟨_, _, hexp, fun _ => ⟨_, rfl, rfl, rfl, rfl⟩, fun h0 => ?_⟩
    exact absurd (List.isEmpty_iff.mpr h0) hemp

/-- C6: when both state fetches return, the export writes no file and
logs the notice exactly when the concatenated row list is empty, and
writes a file holding exactly the concatenation (and logs the save)
otherwise. -/
theorem claimC6 (httpPR : Http PR) (httpC : Http Commit) (cfg : Config)
    (sinceDate : String) (cfuel fuel : Nat)
    (trO trM : List String) (rowsO rowsM : List OutputRow)
    (logsO logsM : List LogEntry)
    (hO : fetchPRs httpPR httpC cfg sinceDate cfuel fuel "OPEN" =
      some (trO, rowsO, logsO))
    (hM : fetchPRs httpPR httpC cfg sinceDate cfuel fuel "MERGED" =
      some (trM, rowsM, logsM)) :
    ∃ out logs, exportToExcel httpPR httpC cfg sinceDate cfuel fuel =
      some (out, logs) ∧
      (rowsO ++ rowsM = [] → out = none ∧ noPRsLog ∈ logs) ∧
      (rowsO ++ rowsM ≠ [] → ∃ f, out = some f ∧ f.rows = rowsO ++ rowsM ∧
        f.path = cfg.repoSlug ++ "_prs.xlsx" ∧ savedLog f.path ∈ logs) := by
  have hexp := exportToExcel_eq hO hM
  by_cases hemp : (rowsO ++ rowsM).isEmpty = true
  · rw [if_pos hemp] at hexp
    exact ⟨none, _, hexp, fun _ => ⟨rfl, by simp⟩,
      fun hne => absurd (List.isEmpty_iff.mp hemp) hne⟩
  · rw [if_neg hemp] at hexp
    exact ⟨_, _, hexp,
      fun h0 => absurd (List.isEmpty_iff.mpr h0) hemp,
      fun _ => ⟨_, rfl, rfl, rfl, by simp⟩⟩

/-- C8 counterexample: the repository identifier is not loaded from the
environment — startup succeeds with repository slug "dreams" both in an
environment that holds no repository setting at all and in one whose
repository setting says "other", so its absence is not (and cannot be) a
fatal startup error. -/
theorem claimC8_counterexample :
    loadConfig witEnvNoRepo = .ok ⟨"u", "p", "w", "dreams"⟩ ∧
    loadConfig witEnvOtherRepo = .ok ⟨"u", "p", "w", "dreams"⟩ ∧
    witEnvOtherRepo "BITBUCKET_REPO_SLUG" = some "other" ∧
    witEnvNoRepo "BITBUCKET_REPO_SLUG" = none := by
  exact ⟨by decide, by decide, by decide, by decide⟩

/-- C8 amended: three required settings — account identifier, access
secret, workspace identifier — are loaded from environment configuration,
and the absence (or emptiness, which JavaScript treats the same) of any
one of them is a fatal startup error raised before any network activity;
the repository identifier is the hardcoded constant "dreams", not an
environment setting. -/
theorem claimC8 (env : String → Option String) :
    ((∃ msg, loadConfig env = .error msg) ↔
      ¬(jsTruthy (env "BITBUCKET_USERNAME") = true ∧
        jsTruthy (env "BITBUCKET_APP_PASSWORD") = true ∧
        jsTruthy (env "BITBUCKET_WORKSPACE") = true)) ∧
    (∀ cfg, loadConfig env = .ok cfg → cfg.repoSlug = "dreams") ∧
    (∀ msg (httpPR : Http PR) (httpC : Http Commit) (sinceDate : String)
        (cfuel fuel : Nat), loadConfig env = .error msg →
      runProgram env httpPR httpC sinceDate cfuel fuel =
        some (.error msg)) := by
  refine ⟨?_, ?_, ?_⟩
  · have hR : jsTruthy (some REPO_SLUG) = true := by decide
    unfold loadConfig
    by_cases h1 : jsTruthy (env "BITBUCKET_USERNAME") = true <;>
      by_cases h2 : jsTruthy (env "BITBUCKET_APP_PASSWORD") = true <;>
        by_cases h3 : jsTruthy (env "BITBUCKET_WORKSPACE") = true <;>
          simp [h1, h2, h3, hR]
  · intro cfg hok
    unfold loadConfig at hok
    split at hok
    · injection hok with hok
      rw [← hok]
      rfl
    · exact absurd hok (by simp)
  · intro msg httpPR httpC sinceDate cfuel fuel herr
    unfold runProgram
    rw [herr]

/-- C4: (a) in both page loops (pull requests and commits), every request
after the first is issued to exactly the `next` link of the preceding
response, a missing or empty `next` ends the loop (that is what links
consecutive trace entries), and (b) both loops terminate — return `some`
rather than the divergence marker `none` — whenever the chain of `next`
links from the start URL is finite (and, for the pull-request loop, every
contributor lookup converges). -/
theorem claimC4 :
    (∀ (α : Type) (http : Http α) (fuel : Nat) (u0 : Option String) tr ps
        res, pageLoop http fuel u0 = some (tr, ps, res) →
      ∀ i u v, tr[i]? = some u → tr[i + 1]? = some v →
      ∃ p, http u = .ok p ∧ normNext p.next = some v) ∧
    (∀ (httpPR : Http PR) (httpC : Http Commit) (cfg : Config)
        (sinceDate : String) (cfuel fuel : Nat) (u0 : Option String) tr res
        logs, fetchLoop httpPR httpC cfg sinceDate cfuel fuel u0 =
          some (tr, res, logs) →
      ∀ i u v, tr[i]? = some u → tr[i + 1]? = some v →
      ∃ p, httpPR u = .ok p ∧ normNext p.next = some v) ∧
    (∀ (α : Type) (http : Http α) (n : Nat) (u : String),
      stepN http n (some u) = none →
      (pageLoop http n (some u)).isSome = true) ∧
    (∀ (httpPR : Http PR) (httpC : Http Commit) (cfg : Config)
        (sinceDate : String) (cfuel n : Nat) (u : String),
      stepN httpPR n (some u) = none →
      (∀ prId, (getContributorsForPR httpC cfg cfuel prId).isSome = true) →
      (fetchLoop httpPR httpC cfg sinceDate cfuel n (some u)).isSome = true) :=
  ⟨fun _ _ _ _ _ _ _ h => pageLoop_chain h,
   fun _ _ _ _ _ _ _ _ _ _ h => fetchLoop_chain h,
   fun _ _ _ _ h => pageLoop_isSome h,
   fun _ _ _ _ _ _ _ h hC => fetchLoop_isSome hC h⟩

/-- Witness for C4 on a two-page fetch: the second request goes to the
`next` link "page2" of the first response, the chain is exhausted after
two steps, and both loops return within fuel 2. -/
theorem claimC4_witness :
    pageLoop witHttpPR 5 (some (prsUrl witCfg "OPEN")) =
      some (witTrO, witPsO, none) ∧
    witTrO[0]? = some (prsUrl witCfg "OPEN") ∧
    witTrO[1]? = some "page2" ∧
    (∃ p, witHttpPR (prsUrl witCfg "OPEN") = .ok p ∧
      normNext p.next = some "page2") ∧
    fetchLoop witHttpPR witHttpC witCfg witSince 1 5
      (some (prsUrl witCfg "OPEN")) = some (witTrO, .ok [witRowFull], []) ∧
    (∃ p, witHttpPR (prsUrl witCfg "OPEN") = .ok p ∧
      normNext p.next = some "page2") ∧
    stepN witHttpPR 2 (some (prsUrl witCfg "OPEN")) = none ∧
    (pageLoop witHttpPR 2 (some (prsUrl witCfg "OPEN"))).isSome = true ∧
    (fetchLoop witHttpPR witHttpCErr witCfg witSince 1 2
      (some (prsUrl witCfg "OPEN"))).isSome = true :=
  ⟨by decide, by decide, by decide,
   claimC4.1 PR witHttpPR 5 (some (prsUrl witCfg "OPEN")) witTrO witPsO none
     (by decide) 0 (prsUrl witCfg "OPEN") "page2" (by decide) (by decide),
   by decide,
   claimC4.2.1 witHttpPR witHttpC witCfg witSince 1 5
     (some (prsUrl witCfg "OPEN")) witTrO (.ok [witRowFull]) []
     (by decide) 0 (prsUrl witCfg "OPEN") "page2" (by decide) (by decide),
   by decide,
   claimC4.2.2.1 PR witHttpPR 2 (prsUrl witCfg "OPEN") (by decide),
   claimC4.2.2.2 witHttpPR witHttpCErr witCfg witSince 1 2
     (prsUrl witCfg "OPEN") (by decide) (fun prId => rfl)⟩

/-- Witness for C1 on a two-page OPEN fetch: pull request 10 (created
inside the window) yields exactly one row; pull request 11 (created
before the cutoff), present on both pages, yields none. -/
theorem claimC1_witness :
    pageLoop witHttpPR 5 (some (prsUrl witCfg "OPEN")) =
      some (witTrO, witPsO, none) ∧
    (∀ pr ∈ keptOf witSince witPsO,
      (rowOf witHttpC witCfg 1 pr).isSome = true) ∧
    ((∃ logs, fetchPRs witHttpPR witHttpC witCfg witSince 1 5 "OPEN" =
      some (witTrO, (keptOf witSince witPsO).map
        (fun pr => (rowOf witHttpC witCfg 1 pr).getD defaultRow), logs)) ∧
    keptOf witSince witPsO = (witPsO.flatMap (·.values)).filter
      (fun pr => dateGE pr.created_on witSince)) :=
  ⟨by decide, by decide,
   claimC1 witHttpPR witHttpC witCfg witSince 1 5 "OPEN" witTrO witPsO
     (by decide) (by decide)⟩

/-- Witness for C3: the first OPEN request throws an error carrying a
response body; `fetchPRs` returns the empty list, logs the body, and
issues no further request. -/
theorem claimC3_witness :
    pageLoop witHttpPRErr 1 (some (prsUrl witCfg "OPEN")) =
      some ([prsUrl witCfg "OPEN"], [], some ⟨some "body", "msg"⟩) ∧
    (∀ pr ∈ keptOf witSince ([] : List (Page PR)),
      (rowOf witHttpC witCfg 1 pr).isSome = true) ∧
    (fetchPRs witHttpPRErr witHttpC witCfg witSince 1 1 "OPEN" =
        some ([prsUrl witCfg "OPEN"], [],
          (keptOf witSince []).flatMap (logsOf witHttpC witCfg 1) ++
            [fetchErrLog "OPEN" ⟨some "body", "msg"⟩]) ∧
      fetchErrLog "OPEN" ⟨some "body", "msg"⟩ =
        ⟨"Error fetching OPEN PRs:",
          some (errDetail ⟨some "body", "msg"⟩)⟩ ∧
      (∀ dta, (⟨some "body", "msg"⟩ : ErrInfo).responseData = some dta →
        dta ≠ "" → errDetail ⟨some "body", "msg"⟩ = dta) ∧
      ((⟨some "body", "msg"⟩ : ErrInfo).responseData = none →
        errDetail ⟨some "body", "msg"⟩ =
          (⟨some "body", "msg"⟩ : ErrInfo).message) ∧
      (∃ u, ([prsUrl witCfg "OPEN"] : List String).getLast? = some u ∧
        witHttpPRErr u = .error ⟨some "body", "msg"⟩)) :=
  ⟨by decide, by decide,
   claimC3 witHttpPRErr witHttpC witCfg witSince 1 1 "OPEN"
     [prsUrl witCfg "OPEN"] [] ⟨some "body", "msg"⟩ (by decide) (by decide)⟩

/-- Witness for C5: OPEN yields one row over two pages, MERGED yields
none; the exported sheet holds the OPEN rows followed by the (empty)
MERGED rows. -/
theorem claimC5_witness :
    pageLoop witHttpPR2 5 (some (prsUrl witCfg "OPEN")) =
      some (witTrO, witPsO, none) ∧
    pageLoop witHttpPR2 5 (some (prsUrl witCfg "MERGED")) =
      some ([prsUrl witCfg "MERGED"], [witPageM], none) ∧
    (∃ out logs, exportToExcel witHttpPR2 witHttpC witCfg witSince 1 5 =
      some (out, logs) ∧
      (pageRows witHttpC witCfg 1 witSince witPsO ++
          pageRows witHttpC witCfg 1 witSince [witPageM] ≠ [] →
        ∃ f, out = some f ∧
          f.rows = pageRows witHttpC witCfg 1 witSince witPsO ++
            pageRows witHttpC witCfg 1 witSince [witPageM] ∧
          f.sheet = "Pull Requests" ∧
          f.path = witCfg.repoSlug ++ "_prs.xlsx") ∧
      (pageRows witHttpC witCfg 1 witSince witPsO ++
          pageRows witHttpC witCfg 1 witSince [witPageM] = [] →
        out = none)) :=
  ⟨by decide, by decide,
   claimC5 witHttpPR2 witHttpC witCfg witSince 1 5 witTrO
     [prsUrl witCfg "MERGED"] witPsO [witPageM]
     (by decide) (by decide) (by decide) (by decide)⟩

/-- Witness for C6: with one OPEN row and no MERGED rows, a file holding
exactly that row is written and the save is logged. -/
theorem claimC6_witness :
    fetchPRs witHttpPR2 witHttpC witCfg witSince 1 5 "OPEN" =
      some (witTrO, [witRowFull], [countLog "OPEN" 1]) ∧
    fetchPRs witHttpPR2 witHttpC witCfg witSince 1 5 "MERGED" =
      some ([prsUrl witCfg "MERGED"], [], [countLog "MERGED" 0]) ∧
    (∃ out logs, exportToExcel witHttpPR2 witHttpC witCfg witSince 1 5 =
      some (out, logs) ∧
      (([witRowFull] : List OutputRow) ++ [] = [] →
        out = none ∧ noPRsLog ∈ logs) ∧
      (([witRowFull] : List OutputRow) ++ [] ≠ [] →
        ∃ f, out = some f ∧ f.rows = ([witRowFull] : List OutputRow) ++ [] ∧
          f.path = witCfg.repoSlug ++ "_prs.xlsx" ∧
          savedLog f.path ∈ logs)) :=
  ⟨by decide, by decide,
   claimC6 witHttpPR2 witHttpC witCfg witSince 1 5 witTrO
     [prsUrl witCfg "MERGED"] [witRowFull] [] [countLog "OPEN" 1]
     [countLog "MERGED" 0] (by decide) (by decide)⟩

/-- Witness for C8: an environment with no settings at all fails startup
and the failure is independent of the network; a populated environment
always yields repository slug "dreams". -/
theorem claimC8_witness :
    (∃ msg, loadConfig witEnvEmpty = .error msg) ∧
    ((⟨"u", "p", "w", "dreams"⟩ : Config).repoSlug = "dreams") ∧
    runProgram witEnvEmpty witHttpPR witHttpC witSince 1 1 =
      some (.error "Missing required environment variables in .env file") :=
  ⟨(claimC8 witEnvEmpty).1.mpr (by decide),
   (claimC8 witEnvNoRepo).2.1 ⟨"u", "p", "w", "dreams"⟩ (by decide),
   (claimC8 witEnvEmpty).2.2
     "Missing required environment variables in .env file"
     witHttpPR witHttpC witSince 1 1 (by decide)⟩

/-- Witness for C10 at a concrete row with timestamps
2024-01-15T10:30:00.000Z and 2024-01-16T11:00:00.000Z. -/
theorem claimC10_witness :
    buildRow witPR [] = some witRowA ∧
    ((∃ tc, parseISO witPR.created_on = some tc ∧
      witRowA.Created_On = dateTimeDisplay tc) ∧
    (∃ tu, parseISO witPR.updated_on = some tu ∧
      witRowA.Updated_On = dateTimeDisplay tu) ∧
    (∀ t : Timestamp, t.year ≤ 9999 → validTimestamp t = true →
      formatDate (Timestamp.toISOString t) = some (dateTimeDisplay t))) :=
  ⟨by decide, claimC10 witPR [] witRowA (by decide)⟩

end DreamsPRs
